import Mathlib

/-
Verification development for the perf-linter core engine
(src/rust/perf-linter-core): a shallow embedding of the single-file
metadata extractor (analyzer/extract.rs), the metadata graph / indexer
(analyzer/metadata.rs), the incremental two-tier cache (cache.rs) and the
ReDoS heuristic (main.rs), together with theorems about the embedded
definitions.

Modelling conventions:
- Machine integers (u64, usize) are Nat with explicit reduction mod 2^64
  where wrap-around matters.
- swc spans: a Span carries the global starting byte position span.lo.0
  (swc BytePos; position 0 is reserved for dummy spans, so the first file
  of a SourceMap occupies positions 1 ..= len, i.e. the character at
  0-based byte offset k of the file sits at BytePos k+1).
- External collaborators (the swc parser, the filesystem, serde) appear
  only at their interface boundary: the parser's output is an
  Option ModuleAst argument, file reads are the given source/parse pairs,
  serde round-trips are the identity on cache entries.
- DashMap / HashMap are modelled as association lists with
  overwrite-on-insert; concurrent indexing (rayon par_iter) is modelled
  as a sequential fold, which the spec licenses (no cross-file ordering
  guarantees; per-file steps are sequential).
-/

namespace PerfLinter

/-! ## Association-list maps (model of DashMap / HashMap) -/

/-- Insert with overwrite: model of DashMap.insert / HashMap.insert. -/
def mapInsert {κ α : Type} [BEq κ] (m : List (κ × α)) (k : κ) (v : α) :
    List (κ × α) :=
  (k, v) :: m.filter (fun e => !(e.1 == k))

/-- Lookup: model of DashMap.get / HashMap.get. -/
def mapLookup {κ α : Type} [BEq κ] (m : List (κ × α)) (k : κ) : Option α :=
  (m.find? (fun e => e.1 == k)).map (fun e => e.2)

/-! ## Data model (analyzer/metadata.rs and analyzer/extract.rs) -/

/-- PropKind from metadata.rs. -/
inductive PropKind : Type where
  | Function : PropKind
  | Object : PropKind
  | Array : PropKind
  | Primitive : PropKind
deriving DecidableEq, Repr

/-- PropInfo from metadata.rs. -/
structure PropInfo : Type where
  name : String
  kind : PropKind
  is_stable : Bool
  line : Nat
deriving DecidableEq, Repr

/-- ExportKind from extract.rs. -/
inductive ExportKind : Type where
  | Named : ExportKind
  | Default : ExportKind
deriving DecidableEq, Repr

/-- ExportInfo from extract.rs. -/
structure ExportInfo : Type where
  name : String
  kind : ExportKind
  line : Nat
deriving DecidableEq, Repr

/-- ImportSpecifierMeta from extract.rs (the field named local in Rust
is local_name here, local being a Lean keyword). -/
structure ImportSpecifierMeta : Type where
  local_name : String
  imported : Option String
deriving DecidableEq, Repr

/-- ImportMeta from extract.rs. -/
structure ImportMeta : Type where
  source : String
  specifiers : List ImportSpecifierMeta
  line : Nat
deriving DecidableEq, Repr

/-- ComponentMeta from metadata.rs. -/
structure ComponentMeta : Type where
  name : String
  file_path : String
  is_memoized : Bool
  props : List PropInfo
  exports : List ExportInfo
  line : Nat
deriving DecidableEq, Repr

/-! ## Syntax-tree fragment consumed by the extractor (swc_ecma_ast)

The extractor overrides six visitor methods; all other nodes are walked
with the default all-children visit.  The embedded tree keeps exactly
the shapes those overrides inspect, with the traversal structure of
swc_ecma_visit: sub-patterns of object/array destructuring patterns are
kept opaque (no overridden visitor can fire inside a pattern). -/

/-- swc Span, reduced to the only field the code reads: lo.0, the
global starting byte position (base 1 for the first file). -/
structure Span : Type where
  lo : Nat
deriving DecidableEq, Repr

/-- swc Ident: symbol plus span. -/
structure SIdent : Type where
  sym : String
  span : Span
deriving DecidableEq, Repr

/-- swc Pat, as discriminated by params_to_props and
VarDeclarator::name.as_ident(): identifier binding, object pattern,
array pattern, or any other pattern shape.  Sub-patterns are opaque. -/
inductive Pat : Type where
  | ident : SIdent → Pat
  | object : Span → Pat
  | array : Span → Pat
  | otherPat : Span → Pat
deriving DecidableEq, Repr

/-- swc Param: the param's own span plus its pattern. -/
structure Param : Type where
  span : Span
  pat : Pat
deriving DecidableEq, Repr

mutual
/-- swc Expr, restricted to the alternatives the extractor distinguishes;
every shape it does not distinguish but whose children it still walks is
one of the listed recursive constructors, and `lit` stands for any
childless expression. -/
inductive Expr : Type where
  | ident : SIdent → Expr
  | member : Expr → MemberPropAst → Span → Expr
  | call : CalleeAst → ExprList → Span → Expr
  | arrow : List Pat → StmtList → Span → Expr
  | fnExpr : List Pat → StmtList → Span → Expr
  | lit : Span → Expr
/-- swc MemberProp: plain identifier, computed property, or private name. -/
inductive MemberPropAst : Type where
  | ident : String → MemberPropAst
  | computed : Expr → MemberPropAst
  | privateName : MemberPropAst
/-- swc Callee: an expression, or Callee::Super / Callee::Import. -/
inductive CalleeAst : Type where
  | expr : Expr → CalleeAst
  | superOrImport : CalleeAst
/-- Argument list of a call expression. -/
inductive ExprList : Type where
  | nil : ExprList
  | cons : Expr → ExprList → ExprList
/-- swc Stmt, restricted to the statement forms whose visit can reach an
overridden visitor: function declarations, variable declarations,
expression statements; every other statement is childless here. -/
inductive Stmt : Type where
  | fnDecl : SIdent → List Param → StmtList → Stmt
  | varDecl : DeclList → Stmt
  | exprStmt : Expr → Stmt
  | otherStmt : Stmt
/-- Statement list (function/arrow bodies, so nested scopes are walked). -/
inductive StmtList : Type where
  | nil : StmtList
  | cons : Stmt → StmtList → StmtList
/-- swc VarDeclarator: binding pattern plus optional initializer. -/
inductive VarDeclAst : Type where
  | mk : Pat → InitAst → VarDeclAst
/-- Optional initializer of a declarator. -/
inductive InitAst : Type where
  | noInit : InitAst
  | init : Expr → InitAst
/-- Declarator list of one variable declaration. -/
inductive DeclList : Type where
  | nil : DeclList
  | cons : VarDeclAst → DeclList → DeclList
end

/-- swc ModuleExportName (for named import specifiers). -/
inductive ModuleExportNameAst : Type where
  | ident : String → ModuleExportNameAst
  | str : String → ModuleExportNameAst
deriving DecidableEq, Repr

/-- swc ImportSpecifier: named, default, or namespace. -/
inductive ImportSpecifierAst : Type where
  | named : String → Option ModuleExportNameAst → ImportSpecifierAst
  | defaultSpec : String → ImportSpecifierAst
  | namespaceStar : String → ImportSpecifierAst
deriving DecidableEq, Repr

/-- The declaration inside an swc ExportDecl, as discriminated by
visit_export_decl: a function declaration, a variable declaration, or
any other declaration kind (class, TsInterface, ...). -/
inductive ExportedDecl : Type where
  | fn : SIdent → List Param → StmtList → ExportedDecl
  | var : DeclList → ExportedDecl
  | classOrOther : ExportedDecl

/-- swc ModuleItem, restricted to the module-level forms the extractor
distinguishes. -/
inductive ModuleItemAst : Type where
  | stmt : Stmt → ModuleItemAst
  | importDecl : String → List ImportSpecifierAst → Span → ModuleItemAst
  | exportDecl : ExportedDecl → Span → ModuleItemAst
  | exportDefaultExpr : Expr → Span → ModuleItemAst
  | otherModuleDecl : ModuleItemAst

/-- swc Module: its ordered list of items. -/
structure ModuleAst : Type where
  items : List ModuleItemAst

/-! ## Single-file extractor (analyzer/extract.rs) -/

/-- span_line from extract.rs: `span.lo.0 as usize`.  Note this is the
raw global byte position of the span start, not a line number. -/
def span_line (s : Span) : Nat := s.lo

/-- The uppercase test of visit_fn_decl / visit_var_declarator:
`name.chars().next().map(|c| c.is_uppercase()).unwrap_or(false)`.
Char.isUpper agrees with Rust's char::is_uppercase on ASCII letters,
which is the fragment exercised here. -/
def firstCharUpper (s : String) : Bool :=
  match s.data with
  | [] => false
  | c :: _ => c.isUpper

/-- is_identifier_react_memo from extract.rs: React.memo member access,
or a bare identifier literally named memo. -/
def is_identifier_react_memo : Expr → Bool
  | .member obj prop _ =>
    match obj with
    | .ident objIdent =>
      if objIdent.sym == "React" then
        match prop with
        | .ident p => p == "memo"
        | _ => false
      else false
    | _ => false
  | .ident i => i.sym == "memo"
  | _ => false

/-- expr_ident_name from extract.rs. -/
def expr_ident_name : Expr → Option String
  | .ident i => some i.sym
  | _ => none

/-- extract_import_specifier from extract.rs. -/
def extract_import_specifier : ImportSpecifierAst → ImportSpecifierMeta
  | .named l i =>
    ⟨l, i.map (fun n => match n with
                        | .ident s => s
                        | .str s => s)⟩
  | .defaultSpec l => ⟨l, some "default"⟩
  | .namespaceStar l => ⟨l, some "*"⟩

/-- params_to_props from extract.rs: the push loop over the parameter
list, one PropInfo per parameter. -/
def params_to_props (params : List Param) : List PropInfo :=
  params.foldl
    (fun props p =>
      props ++ [match p.pat with
                | .ident bi => ⟨bi.sym, PropKind.Primitive, true, span_line bi.span⟩
                | .object _ => ⟨"props", PropKind.Object, false, span_line p.span⟩
                | .array _ => ⟨"props", PropKind.Array, false, span_line p.span⟩
                | .otherPat _ => ⟨"arg", PropKind.Primitive, true, span_line p.span⟩])
    []

/-- The mutable state of MetadataExtractor. -/
structure ExtractState : Type where
  components : List ComponentMeta
  imports : List ImportMeta
  exports : List ExportInfo
deriving DecidableEq, Repr

/-- The empty MetadataExtractor (Default::default()). -/
def emptyExtract : ExtractState := ⟨[], [], []⟩

/-- `self.components.iter_mut().find(|c| c.name == comp_name)` followed by
`c.is_memoized = true`: set the flag of the first component with the
given name, leaving everything else unchanged. -/
def setMemoizedFirst : List ComponentMeta → String → List ComponentMeta
  | [], _ => []
  | c :: rest, n =>
    if c.name == n then {c with is_memoized := true} :: rest
    else c :: setMemoizedFirst rest n

/-- First argument of a call (`args.get(0)`). -/
def firstArg : ExprList → Option Expr
  | .nil => none
  | .cons e _ => some e

/-- The component record visit_fn_decl pushes for an uppercase-named
function declaration. -/
def mkFnDeclComponent (id : SIdent) (params : List Param) : ComponentMeta :=
  ⟨id.sym, "", false, params_to_props params, [], span_line id.span⟩

/-- The state update visit_var_declarator performs on one declarator
before visiting its children: the React.memo linking rule and the
uppercase arrow/function-expression rule.  Declarators whose binding is
not a plain identifier, or with no initializer, leave the state
unchanged here (their children are still visited afterwards). -/
def applyVarDeclRule (st : ExtractState) : VarDeclAst → ExtractState
  | .mk (Pat.ident nid) (InitAst.init e) =>
    match e with
    | .call (CalleeAst.expr ce) args _ =>
      if is_identifier_react_memo ce then
        match firstArg args with
        | some fa =>
          match expr_ident_name fa with
          | some comp_name =>
            if st.components.any (fun c => c.name == comp_name) then
              {st with components := setMemoizedFirst st.components comp_name}
            else
              {st with components :=
                st.components ++
                  [⟨comp_name, "", true, [], [], span_line nid.span⟩]}
          | none => st
        | none => st
      else st
    | .call CalleeAst.superOrImport _ _ => st
    | .arrow _ _ _ =>
      if firstCharUpper nid.sym then
        {st with components :=
          st.components ++ [⟨nid.sym, "", false, [], [], span_line nid.span⟩]}
      else st
    | .fnExpr _ _ _ =>
      if firstCharUpper nid.sym then
        {st with components :=
          st.components ++ [⟨nid.sym, "", false, [], [], span_line nid.span⟩]}
      else st
    | _ => st
  | .mk _ _ => st

mutual
/-- Visit of an expression: no overridden visitor fires on an expression
itself except visit_call_expr, which only recurses, so the state flows
through the children in swc field order. -/
def visitExpr (st : ExtractState) : Expr → ExtractState
  | .ident _ => st
  | .member obj prop _ => visitMemberProp (visitExpr st obj) prop
  | .call c args _ => visitExprList (visitCallee st c) args
  | .arrow _ body _ => visitStmtList st body
  | .fnExpr _ body _ => visitStmtList st body
  | .lit _ => st
/-- Visit of a member property (computed properties contain an expression). -/
def visitMemberProp (st : ExtractState) : MemberPropAst → ExtractState
  | .ident _ => st
  | .computed e => visitExpr st e
  | .privateName => st
/-- Visit of a callee. -/
def visitCallee (st : ExtractState) : CalleeAst → ExtractState
  | .expr e => visitExpr st e
  | .superOrImport => st
/-- Visit of an argument list. -/
def visitExprList (st : ExtractState) : ExprList → ExtractState
  | .nil => st
  | .cons e rest => visitExprList (visitExpr st e) rest
/-- Visit of a statement.  For a function declaration this is
visit_fn_decl: push the component record when the identifier starts
uppercase, then visit the children (parameters are inert, the body is
walked, so nested scopes are reached). -/
def visitStmt (st : ExtractState) : Stmt → ExtractState
  | .fnDecl id params body =>
    let st1 :=
      if firstCharUpper id.sym then
        {st with components := st.components ++ [mkFnDeclComponent id params]}
      else st
    visitStmtList st1 body
  | .varDecl ds => visitDeclList st ds
  | .exprStmt e => visitExpr st e
  | .otherStmt => st
/-- Visit of a statement list, left to right. -/
def visitStmtList (st : ExtractState) : StmtList → ExtractState
  | .nil => st
  | .cons s rest => visitStmtList (visitStmt st s) rest
/-- Visit of a declarator list, left to right. -/
def visitDeclList (st : ExtractState) : DeclList → ExtractState
  | .nil => st
  | .cons d rest => visitDeclList (visitVarDeclarator st d) rest
/-- visit_var_declarator: apply the declarator rule, then visit the
children exactly once (the binding pattern is inert, the initializer is
walked; the early-return branch for a non-expression callee also visits
the children exactly once before returning). -/
def visitVarDeclarator (st : ExtractState) : VarDeclAst → ExtractState
  | .mk name i => visitInit (applyVarDeclRule st (.mk name i)) i
/-- Visit of an optional initializer. -/
def visitInit (st : ExtractState) : InitAst → ExtractState
  | .noInit => st
  | .init e => visitExpr st e
end

/-- visit_export_decl, Decl::Var arm: one Named export per declarator
whose binding is a plain identifier, all carrying the ExportDecl's span. -/
def namedVarExports : DeclList → Span → List ExportInfo
  | .nil, _ => []
  | .cons (.mk (Pat.ident nid) _) rest, sp =>
    ⟨nid.sym, ExportKind.Named, span_line sp⟩ :: namedVarExports rest sp
  | .cons _ rest, sp => namedVarExports rest sp

/-- Visit of one module item.  visit_import_decl, visit_export_decl and
visit_export_default_expr do not call visit_children_with, so nothing
inside an import/export declaration is walked further. -/
def visitModuleItem (st : ExtractState) : ModuleItemAst → ExtractState
  | .stmt s => visitStmt st s
  | .importDecl src specs sp =>
    {st with imports :=
      st.imports ++ [⟨src, specs.map extract_import_specifier, span_line sp⟩]}
  | .exportDecl d sp =>
    match d with
    | .fn id _ _ =>
      {st with exports := st.exports ++ [⟨id.sym, ExportKind.Named, span_line sp⟩]}
    | .var ds =>
      {st with exports := st.exports ++ namedVarExports ds sp}
    | .classOrOther => st
  | .exportDefaultExpr _ sp =>
    {st with exports := st.exports ++ [⟨"default", ExportKind.Default, span_line sp⟩]}
  | .otherModuleDecl => st

/-- Full traversal of a module: `module.visit_with(&mut ex)`. -/
def visitModule (st : ExtractState) (m : ModuleAst) : ExtractState :=
  m.items.foldl visitModuleItem st

/-- extract_all from extract.rs.  The upstream parser (parse_module, an
external collaborator) is represented by its result: some tree on
success, none on parse failure.  On failure all three outputs are the
empty sequence and no error reaches the caller (the function is total). -/
def extract_all (parsed : Option ModuleAst) :
    List ComponentMeta × List ImportMeta × List ExportInfo :=
  match parsed with
  | some m =>
    let ex := visitModule emptyExtract m
    (ex.components, ex.imports, ex.exports)
  | none => ([], [], [])

/-! ## Content fingerprint (cache.rs hash_content / get_cache_path)

The fingerprint is std::collections::hash_map::DefaultHasher, i.e.
SipHash-1-3 with both keys zero (external standard-library code, embedded
here bit-for-bit).  Hashing a &str or String feeds the UTF-8 bytes of the
text followed by one 0xff terminator byte into the streaming hasher, so
the digest is SipHash-1-3 of that byte sequence.  All 64-bit arithmetic
is Nat reduced mod 2^64. -/

/-- 2^64, the u64 modulus. -/
def u64Mod : Nat := 18446744073709551616

/-- Wrapping u64 addition. -/
def wadd (a b : Nat) : Nat := (a + b) % u64Mod

/-- u64 rotate left (for x < 2^64 the reduction keeps exactly the low
64 bits of the shifted-and-ored value, which is the rotation). -/
def rotl64 (x n : Nat) : Nat := ((x <<< n) ||| (x >>> (64 - n))) % u64Mod

/-- The four SipHash state words. -/
structure SipState : Type where
  v0 : Nat
  v1 : Nat
  v2 : Nat
  v3 : Nat

/-- One SipRound. -/
def sipRound (s : SipState) : SipState :=
  let v0 := wadd s.v0 s.v1
  let v1 := rotl64 s.v1 13
  let v1 := v1 ^^^ v0
  let v0 := rotl64 v0 32
  let v2 := wadd s.v2 s.v3
  let v3 := rotl64 s.v3 16
  let v3 := v3 ^^^ v2
  let v0 := wadd v0 v3
  let v3 := rotl64 v3 21
  let v3 := v3 ^^^ v0
  let v2 := wadd v2 v1
  let v1 := rotl64 v1 17
  let v1 := v1 ^^^ v2
  let v2 := rotl64 v2 32
  ⟨v0, v1, v2, v3⟩

/-- SipHash initial state for keys k0 = k1 = 0 (DefaultHasher::new). -/
def sipInit : SipState :=
  ⟨0x736f6d6570736575, 0x646f72616e646f6d, 0x6c7967656e657261, 0x7465646279746573⟩

/-- Little-endian word from at most eight bytes. -/
def le64Word (bs : List Nat) : Nat :=
  bs.foldr (fun b acc => acc * 256 + b) 0

/-- One message word: xor into v3, one compression round (the 1 of
SipHash-1-3), xor into v0. -/
def sipCompress (s : SipState) (m : Nat) : SipState :=
  let s1 := sipRound {s with v3 := s.v3 ^^^ m}
  {s1 with v0 := s1.v0 ^^^ m}

/-- Finalization: last block carries the low byte of the total length in
its top byte; then v2 ^= 0xff and three finalization rounds (the 3 of
SipHash-1-3); the digest is the xor of the four words. -/
def sipFinal (s : SipState) (tail : List Nat) (len : Nat) : Nat :=
  let b := ((len % 256) <<< 56) ||| le64Word tail
  let s1 := sipCompress s b
  let s2 := sipRound (sipRound (sipRound {s1 with v2 := s1.v2 ^^^ 0xff}))
  (s2.v0 ^^^ s2.v1 ^^^ s2.v2 ^^^ s2.v3) % u64Mod

/-- Main loop over full 8-byte blocks; anything shorter than a block is
the final partial block. -/
def sipLoop (s : SipState) (len : Nat) : List Nat → Nat
  | b0 :: b1 :: b2 :: b3 :: b4 :: b5 :: b6 :: b7 :: rest =>
    sipLoop (sipCompress s (le64Word [b0, b1, b2, b3, b4, b5, b6, b7])) len rest
  | tail => sipFinal s tail len

/-- SipHash-1-3 with zero keys over a byte sequence. -/
def sipHash13 (msg : List Nat) : Nat := sipLoop sipInit msg.length msg

/-- UTF-8 encoding of one character. -/
def utf8EncodeChar (c : Char) : List Nat :=
  let n := c.toNat
  if n < 128 then [n]
  else if n < 2048 then [192 ||| (n >>> 6), 128 ||| (n &&& 63)]
  else if n < 65536 then
    [224 ||| (n >>> 12), 128 ||| ((n >>> 6) &&& 63), 128 ||| (n &&& 63)]
  else
    [240 ||| (n >>> 18), 128 ||| ((n >>> 12) &&& 63),
     128 ||| ((n >>> 6) &&& 63), 128 ||| (n &&& 63)]

/-- UTF-8 bytes of a string. -/
def utf8Bytes (s : String) : List Nat :=
  s.data.foldr (fun c acc => utf8EncodeChar c ++ acc) []

/-- hash_content from cache.rs: DefaultHasher over the file text
(str::hash writes the UTF-8 bytes then a 0xff terminator). -/
def hash_content (content : String) : Nat :=
  sipHash13 (utf8Bytes content ++ [0xff])

/-- The fingerprint behind get_cache_path from cache.rs: one DefaultHasher
fed file_path then the cache version (each contributing its bytes plus a
0xff terminator); the resulting u64 names the on-disk cache file. -/
def cache_key (version file_path : String) : Nat :=
  sipHash13 (utf8Bytes file_path ++ [0xff] ++ utf8Bytes version ++ [0xff])

/-! ## Incremental cache (cache.rs) -/

/-- CacheEntry from cache.rs. -/
structure CacheEntry (T : Type) : Type where
  content_hash : Nat
  modified_at : Nat
  data : T
deriving DecidableEq, Repr

/-- IncrementalCache state: the in-memory DashMap tier keyed by file
path, and the on-disk tier keyed by the cache-file fingerprint (serde
serialization round-trips are the identity; a corrupt or unreadable disk
file is modelled as absence).  cache_dir itself is external I/O. -/
structure CacheState (T : Type) : Type where
  memory : List (String × CacheEntry T)
  disk : List (Nat × CacheEntry T)
  version : String
deriving DecidableEq, Repr

/-- A freshly constructed IncrementalCache over an empty directory. -/
def emptyCache (T : Type) (version : String) : CacheState T := ⟨[], [], version⟩

/-- The disk half of IncrementalCache::get: read the cache file, compare
the stored fingerprint, promote into the memory tier on a match. -/
def cacheGetDisk {T : Type} (st : CacheState T) (file_path : String)
    (content_hash : Nat) : Option T × CacheState T :=
  match mapLookup st.disk (cache_key st.version file_path) with
  | some entry =>
    if entry.content_hash = content_hash then
      (some entry.data, {st with memory := mapInsert st.memory file_path entry})
    else (none, st)
  | none => (none, st)

/-- IncrementalCache::get: memory tier first (a hit requires a matching
content fingerprint; on mismatch the code falls through to disk), then
the disk tier.  Returns the result together with the possibly promoted
state. -/
def cacheGet {T : Type} (st : CacheState T) (file_path content : String) :
    Option T × CacheState T :=
  let content_hash := hash_content content
  match mapLookup st.memory file_path with
  | some entry =>
    if entry.content_hash = content_hash then (some entry.data, st)
    else cacheGetDisk st file_path content_hash
  | none => cacheGetDisk st file_path content_hash

/-- IncrementalCache::set: build the entry (now is the SystemTime
timestamp, an external input), store it in the memory tier and
best-effort persist it to disk (the modelled write succeeds; a swallowed
write failure would only shrink the disk tier). -/
def cacheSet {T : Type} (st : CacheState T) (now : Nat)
    (file_path content : String) (data : T) : CacheState T :=
  let entry : CacheEntry T := ⟨hash_content content, now, data⟩
  {st with
    memory := mapInsert st.memory file_path entry,
    disk := mapInsert st.disk (cache_key st.version file_path) entry}

/-! ## Metadata graph / indexer (analyzer/metadata.rs) -/

/-- FileAnalysis from metadata.rs: the cacheable extraction triple. -/
structure FileAnalysis : Type where
  components : List ComponentMeta
  imports : List ImportMeta
  exports : List ExportInfo
deriving DecidableEq, Repr

/-- MetadataGraph: the three DashMaps keyed by file path. -/
structure MetadataGraph : Type where
  components : List (String × ComponentMeta)
  imports : List (String × List ImportMeta)
  exports : List (String × List ExportInfo)
deriving DecidableEq, Repr

/-- The graph as freshly constructed at the top of
index_project_with_cache. -/
def emptyGraph : MetadataGraph := ⟨[], [], []⟩

/-- One turn of the drain loop at the end of the per-file merge:
`comp.file_path = file_path; comp.exports = exps.clone();
components.insert(file_path, comp)`. -/
def insertComponent (file_path : String) (exps : List ExportInfo)
    (g : MetadataGraph) (c : ComponentMeta) : MetadataGraph :=
  {g with components :=
    (mapInsert g.components file_path
      {c with file_path := file_path, exports := exps})}

/-- The merge step of index_project_with_cache for one file, given the
(cached or freshly extracted) triple: insert the import list if
non-empty, likewise the export list, then drain the components into the
single-slot component map — successive inserts silently overwrite, so
the last component wins. -/
def processFileCore (g : MetadataGraph) (file_path : String)
    (t : List ComponentMeta × List ImportMeta × List ExportInfo) :
    MetadataGraph :=
  let comps := t.1
  let imps := t.2.1
  let exps := t.2.2
  let g1 :=
    if imps.isEmpty then g
    else {g with imports := mapInsert g.imports file_path imps}
  let g2 :=
    if exps.isEmpty then g1
    else {g1 with exports := mapInsert g1.exports file_path exps}
  comps.foldl (insertComponent file_path exps) g2

/-- One candidate file as the indexer sees it: its path, its exact text
(read_to_string; unreadable files never reach this list), and the
upstream parser's result for that text. -/
structure FileInput : Type where
  path : String
  source : String
  parsed : Option ModuleAst

/-- The cache-first branch of the per-file worker: query the cache; on a
hit use the cached triple, on a miss run the extractor and store the
fresh triple (the SystemTime timestamp is modelled as 0; it is never
read back). -/
def cacheStep (c : CacheState FileAnalysis) (f : FileInput) :
    (List ComponentMeta × List ImportMeta × List ExportInfo) ×
      CacheState FileAnalysis :=
  match cacheGet c f.path f.source with
  | (some fa, c1) => ((fa.components, fa.imports, fa.exports), c1)
  | (none, c1) =>
    let r := extract_all f.parsed
    (r, cacheSet c1 0 f.path f.source ⟨r.1, r.2.1, r.2.2⟩)

/-- index_project_with_cache from metadata.rs: enumerate the candidate
files (walkdir with the denylist, external I/O — here the given list),
process each one (cache-first when use_cache, else always extract) and
merge into the shared graph.  The rayon workers are modelled as a fold;
the spec guarantees no cross-file ordering.  The cache starts from an
empty state, modelling a fresh cache directory (the real directory under
the system temp location can persist across runs). -/
def index_project_with_cache (files : List FileInput) (use_cache : Bool) :
    MetadataGraph :=
  if use_cache then
    (files.foldl
      (fun (gc : MetadataGraph × CacheState FileAnalysis) f =>
        let tc := cacheStep gc.2 f
        (processFileCore gc.1 f.path tc.1, tc.2))
      (emptyGraph, emptyCache FileAnalysis "0.6.0")).1
  else
    files.foldl (fun g f => processFileCore g f.path (extract_all f.parsed))
      emptyGraph

/-- index_project from metadata.rs: caching enabled. -/
def index_project (files : List FileInput) : MetadataGraph :=
  index_project_with_cache files true

/-- is_component_memoized from metadata.rs: the flag of the file's
component-map entry, false when absent. -/
def is_component_memoized (g : MetadataGraph) (file : String) : Bool :=
  match mapLookup g.components file with
  | some c => c.is_memoized
  | none => false

/-! ## ReDoS heuristic (main.rs) -/

/-- A regex word character as used by the detector's `\w` (ASCII
letters, digits and underscore; the claims only exercise this fragment
of the Unicode-aware class). -/
def isWordChar (c : Char) : Bool := c.isAlpha || c.isDigit || c == '_'

/-- The fully anchored matcher of detect_simple_nested_quantifier, as a
direct decision procedure on the character list: optional caret, an
opening parenthesis, exactly one word character, the literal plus,
closing parenthesis, plus, then an optional dollar and the end.  On a
match it returns the rewrite with the outer plus removed; the two arms
are mutually exclusive (a pattern cannot start with both a caret and a
parenthesis). -/
def detectCore : List Char → Option (List Char)
  | '^' :: '(' :: c :: '+' :: ')' :: '+' :: rest =>
    if isWordChar c then
      match rest with
      | [] => some ['^', '(', c, '+', ')']
      | ['$'] => some ['^', '(', c, '+', ')', '$']
      | _ => none
    else none
  | '(' :: c :: '+' :: ')' :: '+' :: rest =>
    if isWordChar c then
      match rest with
      | [] => some ['(', c, '+', ')']
      | ['$'] => some ['(', c, '+', ')', '$']
      | _ => none
    else none
  | _ => none

/-- detect_simple_nested_quantifier from main.rs. -/
def detect_simple_nested_quantifier (pattern : String) : Option String :=
  (detectCore pattern.data).map String.mk

/-- is_likely_safe from main.rs. -/
def is_likely_safe (pattern : String) : Bool :=
  (detect_simple_nested_quantifier pattern).isNone

/-- RedosOutput from main.rs. -/
structure RedosOutput : Type where
  safe : Bool
  rewrite : Option String
deriving DecidableEq, Repr

/-- The CheckRedos command core from main: rewrite is the detector's
suggestion, safe is rewrite.is_none() && is_likely_safe(pattern). -/
def check_redos (pattern : String) : RedosOutput :=
  let rewrite := detect_simple_nested_quantifier pattern
  ⟨rewrite.isNone && is_likely_safe pattern, rewrite⟩

/-! ## Spec-side comparison definitions and ground truth -/

/-- The per-parameter conversion in the words of the spec (section 4.1):
a simple identifier binding gives Primitive, stable, the identifier's
name; an object-destructuring pattern gives Object, unstable, synthetic
name props; an array-destructuring pattern gives Array, unstable,
synthetic name props; anything else gives Primitive, stable, synthetic
name arg.  Stated for comparison with the code's params_to_props. -/
def specParamPropInfo (p : Param) : PropInfo :=
  match p.pat with
  | .ident bi => ⟨bi.sym, PropKind.Primitive, true, span_line bi.span⟩
  | .object _ => ⟨"props", PropKind.Object, false, span_line p.span⟩
  | .array _ => ⟨"props", PropKind.Array, false, span_line p.span⟩
  | .otherPat _ => ⟨"arg", PropKind.Primitive, true, span_line p.span⟩

/-- Ground truth for line numbers: the 1-based source line of a global
byte position (base-1, single file), i.e. one plus the number of
newlines strictly before that position.  This is what the upstream
source map resolves a span position to. -/
def lineOfBytePos (src : String) (pos : Nat) : Nat :=
  1 + (src.data.take (pos - 1)).countP (fun c => c = '\n')

/-! ## Concrete parsed inputs

Each module below is the swc parse tree of the quoted one-file source,
with spans at their real base-1 global byte positions (the character at
0-based offset k sits at position k+1). -/

/-- Source text `function Button(props) \x7b\x7d` (the declaration sits
entirely on line 1).  Byte offsets: Button at 9..14, props at 16..20. -/
def buttonSrc : String := "function Button(props) \x7b\x7d"

/-- Parse tree of buttonSrc: one top-level function declaration; the
identifier's span starts at position 10, the parameter at 17. -/
def buttonModule : ModuleAst :=
  ⟨[.stmt (.fnDecl ⟨"Button", ⟨10⟩⟩ [⟨⟨17⟩, .ident ⟨"props", ⟨17⟩⟩⟩] .nil)]⟩

/-- Parse tree of `function helper(props) \x7b\x7d`: a top-level plain
function declaration whose identifier starts lowercase (helper at 10,
props at 17). -/
def lowerFnModule : ModuleAst :=
  ⟨[.stmt (.fnDecl ⟨"helper", ⟨10⟩⟩ [⟨⟨17⟩, .ident ⟨"props", ⟨17⟩⟩⟩] .nil)]⟩

/-- Parse tree of `export function Button(props) \x7b\x7d`: an
ExportDecl (span position 1) wrapping a function declaration (identifier
Button at 17, parameter props at 24). -/
def exportButtonModule : ModuleAst :=
  ⟨[.exportDecl (.fn ⟨"Button", ⟨17⟩⟩ [⟨⟨24⟩, .ident ⟨"props", ⟨24⟩⟩⟩] .nil) ⟨1⟩]⟩

/-- Parse tree of `const Button = () => \x7b\x7d; export default Button;`:
a declarator (identifier Button at 7, arrow initializer at 16) followed
by an ExportDefaultExpr (span position 26, expression the identifier
Button at 41) — `export default <ident>` is a default-expression export
in swc, not an export declaration. -/
def defaultIdentModule : ModuleAst :=
  ⟨[.stmt (.varDecl (.cons
      (.mk (.ident ⟨"Button", ⟨7⟩⟩) (.init (.arrow [] .nil ⟨16⟩))) .nil)),
    .exportDefaultExpr (.ident ⟨"Button", ⟨41⟩⟩) ⟨26⟩]⟩

/-- Parse tree of `export default () => \x7b\x7d`: an ExportDefaultExpr
(span position 1) around an arrow expression (position 16). -/
def defaultArrowModule : ModuleAst :=
  ⟨[.exportDefaultExpr (.arrow [] .nil ⟨16⟩) ⟨1⟩]⟩

/-- Parse tree of `function Foo() \x7b\x7d` newline
`function Bar() \x7b\x7d`: two top-level component declarations in one
file (Foo at 10, Bar at 28). -/
def twoCompModule : ModuleAst :=
  ⟨[.stmt (.fnDecl ⟨"Foo", ⟨10⟩⟩ [] .nil),
    .stmt (.fnDecl ⟨"Bar", ⟨28⟩⟩ [] .nil)]⟩

/-- Parse tree of `function Foo(props) \x7b\x7d` newline
`const Memoized = React.memo(Foo);`: a component declaration (Foo at 10,
props at 14) followed by a memoizing declarator (Memoized at 30, the
React.memo member expression and the call both starting at 41, the
argument Foo at 52). -/
def fooMemoModule : ModuleAst :=
  ⟨[.stmt (.fnDecl ⟨"Foo", ⟨10⟩⟩ [⟨⟨14⟩, .ident ⟨"props", ⟨14⟩⟩⟩] .nil),
    .stmt (.varDecl (.cons
      (.mk (.ident ⟨"Memoized", ⟨30⟩⟩)
        (.init (.call
          (.expr (.member (.ident ⟨"React", ⟨41⟩⟩) (.ident "memo") ⟨41⟩))
          (.cons (.ident ⟨"Foo", ⟨52⟩⟩) .nil) ⟨41⟩)))
      .nil))]⟩

/-- The fooMemoModule file as the indexer sees it. -/
def fooMemoFile : FileInput :=
  ⟨"src/Foo.tsx",
   "function Foo(props) \x7b\x7d\nconst Memoized = React.memo(Foo);",
   some fooMemoModule⟩

/-- Parse tree of `function Foo() \x7b\x7d` newline
`const [M] = React.memo(Foo);`: a recorded component Foo (at 10) and a
variable declaration whose initializer is a React.memo call with the
bare identifier Foo as first argument, but whose binding is an array
destructuring pattern (at 25), so visit_var_declarator's
`d.name.as_ident()` guard fails and the memo-linking rule never runs. -/
def arrayMemoBindModule : ModuleAst :=
  ⟨[.stmt (.fnDecl ⟨"Foo", ⟨10⟩⟩ [] .nil),
    .stmt (.varDecl (.cons
      (.mk (.array ⟨25⟩)
        (.init (.call
          (.expr (.member (.ident ⟨"React", ⟨31⟩⟩) (.ident "memo") ⟨31⟩))
          (.cons (.ident ⟨"Foo", ⟨42⟩⟩) .nil) ⟨31⟩)))
      .nil))]⟩

/-- The declarator of arrayMemoBindModule, for the step-level statement. -/
def arrayMemoDecl : VarDeclAst :=
  .mk (.array ⟨25⟩)
    (.init (.call
      (.expr (.member (.ident ⟨"React", ⟨31⟩⟩) (.ident "memo") ⟨31⟩))
      (.cons (.ident ⟨"Foo", ⟨42⟩⟩) .nil) ⟨31⟩))

/-- Parse tree of `import x from "y"; export const Z = 1;` and its file
record (the import declaration spans from position 1, the export
declaration from 20, the declarator Z at 33). -/
def impExpModule : ModuleAst :=
  ⟨[.importDecl "y" [.defaultSpec "x"] ⟨1⟩,
    .exportDecl (.var (.cons (.mk (.ident ⟨"Z", ⟨33⟩⟩) (.init (.lit ⟨37⟩))) .nil)) ⟨20⟩]⟩

/-- The impExpModule file as the indexer sees it. -/
def impExpFile : FileInput :=
  ⟨"b.ts", "import x from \"y\"; export const Z = 1;", some impExpModule⟩

/-! ## The component-list extension relation

Every visitor step transforms the component list only by appending new
records or by raising the is_memoized flag of an existing record
(setMemoizedFirst); no record is ever removed, renamed or reordered.
flagLe relates a record to its possibly flag-raised future self, and
CompExtends relates a component list to any later state of that list. -/

/-- A record and its later self: every field equal except that a true
is_memoized flag may have been raised. -/
def flagLe (o n : ComponentMeta) : Prop :=
  n.name = o.name ∧ n.file_path = o.file_path ∧ n.props = o.props ∧
    n.exports = o.exports ∧ n.line = o.line ∧
    (o.is_memoized = true → n.is_memoized = true)

/-- The new list is the old list (pointwise flagLe) followed by freshly
appended records. -/
def CompExtends (old new : List ComponentMeta) : Prop :=
  ∃ mid tail, new = mid ++ tail ∧ List.Forall₂ flagLe old mid

/-! # Theorems -/

/-! ## Association-list map lemmas -/

theorem mapLookup_insert_self {κ α : Type} [BEq κ] [LawfulBEq κ]
    (m : List (κ × α)) (k : κ) (v : α) :
    mapLookup (mapInsert m k v) k = some v := by
  simp [mapLookup, mapInsert, List.find?]

theorem mapLookup_insert_ne {κ α : Type} [BEq κ] [LawfulBEq κ]
    (m : List (κ × α)) (k k2 : κ) (v : α) (h : k2 ≠ k) :
    mapLookup (mapInsert m k v) k2 = mapLookup m k2 := by
  simp only [mapLookup, mapInsert]
  have hk : (k == k2) = false := by
    simp only [beq_eq_false_iff_ne, ne_eq]
    exact fun he => h he.symm
  rw [List.find?_cons_of_neg _ (by simpa using hk)]
  congr 1
  induction m with
  | nil => rfl
  | cons e rest ih =>
    by_cases he : e.1 == k
    · have hne : (e.1 == k2) = false := by
        simp only [beq_iff_eq] at he
        simp [he, beq_eq_false_iff_ne]
        exact fun hx => h hx.symm
      simp [List.filter, he, List.find?, hne, ih]
    · simp only [List.filter, he, Bool.not_false]
      by_cases he2 : e.1 == k2
      · simp [List.find?, he2]
      · simp only [Bool.not_eq_true] at he2
        simp [List.find?, he2, ih]

theorem mapLookup_mem {κ α : Type} [BEq κ] [LawfulBEq κ]
    (m : List (κ × α)) (k : κ) (v : α) (h : mapLookup m k = some v) :
    (k, v) ∈ m := by
  simp only [mapLookup, Option.map_eq_some'] at h
  obtain ⟨e, he, hv⟩ := h
  have hm := List.mem_of_find?_eq_some he
  have hp := List.find?_some he
  simp only [beq_iff_eq] at hp
  have : e = (k, v) := by
    cases e
    simp only at hp hv
    simp [hp, hv]
  exact this ▸ hm

theorem mapInsert_mem {κ α : Type} [BEq κ]
    (m : List (κ × α)) (k : κ) (v : α) (e : κ × α)
    (h : e ∈ mapInsert m k v) : e = (k, v) ∨ e ∈ m := by
  simp only [mapInsert, List.mem_cons] at h
  rcases h with h | h
  · exact Or.inl h
  · exact Or.inr (List.mem_of_mem_filter h)

/-! ## flagLe / CompExtends machinery -/

theorem flagLe_refl (c : ComponentMeta) : flagLe c c :=
  ⟨rfl, rfl, rfl, rfl, rfl, fun h => h⟩

theorem flagLe_trans {a b c : ComponentMeta} (h1 : flagLe a b) (h2 : flagLe b c) :
    flagLe a c := by
  obtain ⟨n1, f1, p1, e1, l1, m1⟩ := h1
  obtain ⟨n2, f2, p2, e2, l2, m2⟩ := h2
  exact ⟨n2.trans n1, f2.trans f1, p2.trans p1, e2.trans e1, l2.trans l1,
    fun h => m2 (m1 h)⟩

theorem forall₂_flagLe_refl (l : List ComponentMeta) : List.Forall₂ flagLe l l :=
  List.forall₂_same.mpr (fun c _ => flagLe_refl c)

theorem forall₂_flagLe_trans :
    ∀ {a b c : List ComponentMeta},
      List.Forall₂ flagLe a b → List.Forall₂ flagLe b c → List.Forall₂ flagLe a c
  | _, _, _, List.Forall₂.nil, List.Forall₂.nil => List.Forall₂.nil
  | _, _, _, List.Forall₂.cons h1 t1, List.Forall₂.cons h2 t2 =>
    List.Forall₂.cons (flagLe_trans h1 h2) (forall₂_flagLe_trans t1 t2)

/-- Splitting a Forall₂ whose left side is an append. -/
theorem forall₂_flagLe_split :
    ∀ {l1 l2 v : List ComponentMeta}, List.Forall₂ flagLe (l1 ++ l2) v →
      ∃ v1 v2, v = v1 ++ v2 ∧ List.Forall₂ flagLe l1 v1 ∧ List.Forall₂ flagLe l2 v2 := by
  intro l1
  induction l1 with
  | nil => exact fun h => ⟨[], _, rfl, List.Forall₂.nil, h⟩
  | cons a l1 ih =>
    intro l2 v h
    cases h with
    | cons hab ht =>
      obtain ⟨v1, v2, rfl, h1, h2⟩ := ih ht
      exact ⟨_ :: v1, v2, rfl, List.Forall₂.cons hab h1, h2⟩

theorem compExtends_refl (l : List ComponentMeta) : CompExtends l l :=
  ⟨l, [], (List.append_nil l).symm, forall₂_flagLe_refl l⟩

theorem compExtends_trans {a b c : List ComponentMeta}
    (h1 : CompExtends a b) (h2 : CompExtends b c) : CompExtends a c := by
  obtain ⟨m1, t1, rfl, f1⟩ := h1
  obtain ⟨m2, t2, rfl, f2⟩ := h2
  obtain ⟨v1, v2, rfl, g1, g2⟩ := forall₂_flagLe_split f2
  exact ⟨v1, v2 ++ t2, List.append_assoc v1 v2 t2,
    forall₂_flagLe_trans f1 g1⟩

theorem compExtends_append (xs ys : List ComponentMeta) :
    CompExtends xs (xs ++ ys) :=
  ⟨xs, ys, rfl, forall₂_flagLe_refl xs⟩

theorem forall₂_flagLe_setMemoizedFirst (xs : List ComponentMeta) (n : String) :
    List.Forall₂ flagLe xs (setMemoizedFirst xs n) := by
  induction xs with
  | nil => exact List.Forall₂.nil
  | cons c rest ih =>
    by_cases h : c.name == n
    · simp only [setMemoizedFirst, h, if_true]
      exact List.Forall₂.cons ⟨rfl, rfl, rfl, rfl, rfl, fun _ => rfl⟩
        (forall₂_flagLe_refl rest)
    · simp only [setMemoizedFirst, h, if_false]
      exact List.Forall₂.cons (flagLe_refl c) ih

theorem compExtends_setMemoizedFirst (xs : List ComponentMeta) (n : String) :
    CompExtends xs (setMemoizedFirst xs n) :=
  ⟨setMemoizedFirst xs n, [], (List.append_nil _).symm,
    forall₂_flagLe_setMemoizedFirst xs n⟩

/-- Once a record with a given name and a raised flag is in the list, it
survives (as a record with the same name and flag) every later extension. -/
theorem compExtends_preserves_memoized {old new : List ComponentMeta} {n : String}
    (hx : CompExtends old new)
    (h : ∃ c ∈ old, c.name = n ∧ c.is_memoized = true) :
    ∃ c ∈ new, c.name = n ∧ c.is_memoized = true := by
  obtain ⟨mid, tail, rfl, f⟩ := hx
  obtain ⟨c, hc, hn, hm⟩ := h
  suffices hs : ∃ c2 ∈ mid, c2.name = n ∧ c2.is_memoized = true by
    obtain ⟨c2, hc2, h2⟩ := hs
    exact ⟨c2, List.mem_append_left tail hc2, h2⟩
  induction f with
  | nil => cases hc
  | cons hab ht ih =>
    rcases List.mem_cons.mp hc with rfl | hc
    · exact ⟨_, List.mem_cons_self _ _, hab.1.trans hn, hab.2.2.2.2.2 hm⟩
    · obtain ⟨c2, hc2, h2⟩ := ih hc
      exact ⟨c2, List.mem_cons_of_mem _ hc2, h2⟩

/-- Extension never loses a name: the new name list is the old name list
plus appended names. -/
theorem compExtends_names {old new : List ComponentMeta}
    (hx : CompExtends old new) :
    ∃ t, new.map (fun c => c.name) = old.map (fun c => c.name) ++ t := by
  obtain ⟨mid, tail, rfl, f⟩ := hx
  refine ⟨tail.map (fun c => c.name), ?_⟩
  rw [List.map_append]
  congr 1
  induction f with
  | nil => rfl
  | cons hab ht ih => simp [ih, hab.1]

/-! ## Every visitor step only extends the component list -/

theorem applyVarDeclRule_extends (st : ExtractState) (d : VarDeclAst) :
    CompExtends st.components (applyVarDeclRule st d).components := by
  unfold applyVarDeclRule
  repeat' split
  all_goals
    first
      | exact compExtends_refl _
      | exact compExtends_setMemoizedFirst _ _
      | exact compExtends_append _ _

mutual
theorem visitExpr_extends (st : ExtractState) (e : Expr) :
    CompExtends st.components (visitExpr st e).components := by
  cases e with
  | ident id => exact compExtends_refl _
  | member obj prop sp =>
    simp only [visitExpr]
    exact compExtends_trans (visitExpr_extends st obj)
      (visitMemberProp_extends (visitExpr st obj) prop)
  | call c args sp =>
    simp only [visitExpr]
    exact compExtends_trans (visitCallee_extends st c)
      (visitExprList_extends (visitCallee st c) args)
  | arrow ps body sp =>
    simp only [visitExpr]
    exact visitStmtList_extends st body
  | fnExpr ps body sp =>
    simp only [visitExpr]
    exact visitStmtList_extends st body
  | lit sp => exact compExtends_refl _
theorem visitMemberProp_extends (st : ExtractState) (p : MemberPropAst) :
    CompExtends st.components (visitMemberProp st p).components := by
  cases p with
  | ident s => exact compExtends_refl _
  | computed e =>
    simp only [visitMemberProp]
    exact visitExpr_extends st e
  | privateName => exact compExtends_refl _
theorem visitCallee_extends (st : ExtractState) (c : CalleeAst) :
    CompExtends st.components (visitCallee st c).components := by
  cases c with
  | expr e =>
    simp only [visitCallee]
    exact visitExpr_extends st e
  | superOrImport => exact compExtends_refl _
theorem visitExprList_extends (st : ExtractState) (l : ExprList) :
    CompExtends st.components (visitExprList st l).components := by
  cases l with
  | nil => exact compExtends_refl _
  | cons e rest =>
    simp only [visitExprList]
    exact compExtends_trans (visitExpr_extends st e)
      (visitExprList_extends (visitExpr st e) rest)
theorem visitStmt_extends (st : ExtractState) (s : Stmt) :
    CompExtends st.components (visitStmt st s).components := by
  cases s with
  | fnDecl id params body =>
    simp only [visitStmt]
    by_cases h : firstCharUpper id.sym
    · simp only [h, if_true]
      exact compExtends_trans (compExtends_append _ _)
        (visitStmtList_extends _ body)
    · simp only [h, if_false]
      exact visitStmtList_extends st body
  | varDecl ds =>
    simp only [visitStmt]
    exact visitDeclList_extends st ds
  | exprStmt e =>
    simp only [visitStmt]
    exact visitExpr_extends st e
  | otherStmt => exact compExtends_refl _
theorem visitStmtList_extends (st : ExtractState) (l : StmtList) :
    CompExtends st.components (visitStmtList st l).components := by
  cases l with
  | nil => exact compExtends_refl _
  | cons s rest =>
    simp only [visitStmtList]
    exact compExtends_trans (visitStmt_extends st s)
      (visitStmtList_extends (visitStmt st s) rest)
theorem visitDeclList_extends (st : ExtractState) (l : DeclList) :
    CompExtends st.components (visitDeclList st l).components := by
  cases l with
  | nil => exact compExtends_refl _
  | cons d rest =>
    simp only [visitDeclList]
    exact compExtends_trans (visitVarDeclarator_extends st d)
      (visitDeclList_extends (visitVarDeclarator st d) rest)
theorem visitVarDeclarator_extends (st : ExtractState) (d : VarDeclAst) :
    CompExtends st.components (visitVarDeclarator st d).components := by
  cases d with
  | mk name i =>
    simp only [visitVarDeclarator]
    exact compExtends_trans (applyVarDeclRule_extends st (.mk name i))
      (visitInit_extends (applyVarDeclRule st (.mk name i)) i)
theorem visitInit_extends (st : ExtractState) (i : InitAst) :
    CompExtends st.components (visitInit st i).components := by
  cases i with
  | noInit => exact compExtends_refl _
  | init e =>
    simp only [visitInit]
    exact visitExpr_extends st e
end

theorem visitModuleItem_extends (st : ExtractState) (it : ModuleItemAst) :
    CompExtends st.components (visitModuleItem st it).components := by
  cases it with
  | stmt s =>
    simp only [visitModuleItem]
    exact visitStmt_extends st s
  | importDecl src specs sp => exact compExtends_refl _
  | exportDecl d sp =>
    cases d <;> exact compExtends_refl _
  | exportDefaultExpr e sp => exact compExtends_refl _
  | otherModuleDecl => exact compExtends_refl _

theorem foldl_visitModuleItem_extends (st : ExtractState)
    (items : List ModuleItemAst) :
    CompExtends st.components (items.foldl visitModuleItem st).components := by
  induction items generalizing st with
  | nil => exact compExtends_refl _
  | cons it rest ih =>
    exact compExtends_trans (visitModuleItem_extends st it)
      (ih (visitModuleItem st it))

/-! ## Graph merge lemmas -/

theorem foldl_insertComponent_imports (cs : List ComponentMeta)
    (g : MetadataGraph) (p : String) (exps : List ExportInfo) :
    (cs.foldl (insertComponent p exps) g).imports = g.imports := by
  induction cs generalizing g with
  | nil => rfl
  | cons c rest ih => exact ih (insertComponent p exps g c)

theorem foldl_insertComponent_exports (cs : List ComponentMeta)
    (g : MetadataGraph) (p : String) (exps : List ExportInfo) :
    (cs.foldl (insertComponent p exps) g).exports = g.exports := by
  induction cs generalizing g with
  | nil => rfl
  | cons c rest ih => exact ih (insertComponent p exps g c)

/-- Successive single-slot inserts: the drain loop leaves the last
component of the list in the map. -/
theorem foldl_insertComponent_lookup_last (cs : List ComponentMeta)
    (g : MetadataGraph) (p : String) (exps : List ExportInfo)
    (c0 : ComponentMeta) (h : cs.getLast? = some c0) :
    mapLookup (cs.foldl (insertComponent p exps) g).components p =
      some {c0 with file_path := p, exports := exps} := by
  induction cs generalizing g with
  | nil => cases h
  | cons c rest ih =>
    cases rest with
    | nil =>
      simp only [List.getLast?_singleton, Option.some.injEq] at h
      subst h
      simp only [List.foldl_cons, List.foldl_nil, insertComponent]
      exact mapLookup_insert_self _ _ _
    | cons c2 rest2 =>
      rw [List.getLast?_cons_cons] at h
      exact ih (insertComponent p exps g c) h

/-- The imports map of the per-file merge. -/
theorem processFileCore_imports (g : MetadataGraph) (p : String)
    (t : List ComponentMeta × List ImportMeta × List ExportInfo) :
    (processFileCore g p t).imports =
      (if t.2.1.isEmpty then g.imports else mapInsert g.imports p t.2.1) := by
  simp only [processFileCore, foldl_insertComponent_imports]
  by_cases h1 : t.2.1.isEmpty <;> by_cases h2 : t.2.2.isEmpty <;>
    simp [h1, h2]

/-- The exports map of the per-file merge. -/
theorem processFileCore_exports (g : MetadataGraph) (p : String)
    (t : List ComponentMeta × List ImportMeta × List ExportInfo) :
    (processFileCore g p t).exports =
      (if t.2.2.isEmpty then g.exports else mapInsert g.exports p t.2.2) := by
  simp only [processFileCore, foldl_insertComponent_exports]
  by_cases h1 : t.2.1.isEmpty <;> by_cases h2 : t.2.2.isEmpty <;>
    simp [h1, h2]

/-- Invariant of the graph maps: no stored import or export list is
empty. -/
def NoEmptyVals (g : MetadataGraph) : Prop :=
  (∀ e ∈ g.imports, e.2 ≠ ([] : List ImportMeta)) ∧
    (∀ e ∈ g.exports, e.2 ≠ ([] : List ExportInfo))

theorem processFileCore_noEmptyVals (g : MetadataGraph) (p : String)
    (t : List ComponentMeta × List ImportMeta × List ExportInfo)
    (h : NoEmptyVals g) : NoEmptyVals (processFileCore g p t) := by
  constructor
  · intro e he
    rw [processFileCore_imports] at he
    by_cases h1 : t.2.1.isEmpty
    · rw [if_pos h1] at he
      exact h.1 e he
    · rw [if_neg h1] at he
      rcases mapInsert_mem _ _ _ _ he with rfl | he
      · simpa [List.isEmpty_iff] using h1
      · exact h.1 e he
  · intro e he
    rw [processFileCore_exports] at he
    by_cases h2 : t.2.2.isEmpty
    · rw [if_pos h2] at he
      exact h.2 e he
    · rw [if_neg h2] at he
      rcases mapInsert_mem _ _ _ _ he with rfl | he
      · simpa [List.isEmpty_iff] using h2
      · exact h.2 e he

theorem index_project_with_cache_noEmptyVals (files : List FileInput)
    (uc : Bool) : NoEmptyVals (index_project_with_cache files uc) := by
  have hstart : NoEmptyVals emptyGraph := by
    constructor <;> intro e he <;> cases he
  unfold index_project_with_cache
  by_cases h : uc
  · rw [if_pos h]
    suffices hgen : ∀ (gc : MetadataGraph × CacheState FileAnalysis),
        NoEmptyVals gc.1 →
        NoEmptyVals
          ((files.foldl
            (fun gc f =>
              let tc := cacheStep gc.2 f
              (processFileCore gc.1 f.path tc.1, tc.2)) gc)).1 by
      exact hgen (emptyGraph, emptyCache FileAnalysis "0.6.0") hstart
    induction files with
    | nil => exact fun gc h => h
    | cons f rest ih =>
      intro gc hgc
      exact ih _ (processFileCore_noEmptyVals _ _ _ hgc)
  · rw [if_neg h]
    suffices hgen : ∀ g : MetadataGraph, NoEmptyVals g →
        NoEmptyVals
          (files.foldl (fun g f => processFileCore g f.path (extract_all f.parsed)) g) by
      exact hgen emptyGraph hstart
    induction files with
    | nil => exact fun g h => h
    | cons f rest ih =>
      intro g hg
      exact ih _ (processFileCore_noEmptyVals _ _ _ hg)

/-! ## Cache lemmas -/

/-- All entries in both tiers carry the given fingerprint. -/
def cacheAllHash {T : Type} (st : CacheState T) (h : Nat) : Prop :=
  (∀ e ∈ st.memory, e.2.content_hash = h) ∧ (∀ e ∈ st.disk, e.2.content_hash = h)

theorem cacheSet_allHash {T : Type} (st : CacheState T) (now : Nat)
    (p c : String) (d : T) (hst : cacheAllHash st (hash_content c)) :
    cacheAllHash (cacheSet st now p c d) (hash_content c) := by
  constructor
  · intro e he
    rcases mapInsert_mem _ _ _ _ he with rfl | he
    · rfl
    · exact hst.1 e he
  · intro e he
    rcases mapInsert_mem _ _ _ _ he with rfl | he
    · rfl
    · exact hst.2 e he

theorem cacheGet_none_of_allHash {T : Type} (st : CacheState T)
    (p cNew : String) (h : Nat) (hst : cacheAllHash st h)
    (hne : hash_content cNew ≠ h) : (cacheGet st p cNew).1 = none := by
  have hdisk : (cacheGetDisk st p (hash_content cNew)).1 = none := by
    simp only [cacheGetDisk]
    cases hd : mapLookup st.disk (cache_key st.version p) with
    | none => rfl
    | some e =>
      have he := hst.2 _ (mapLookup_mem _ _ _ hd)
      simp only at he
      dsimp only
      rw [if_neg (by rw [he]; exact fun hx => hne hx.symm)]
  simp only [cacheGet]
  cases hm : mapLookup st.memory p with
  | none => exact hdisk
  | some e =>
    have he := hst.1 _ (mapLookup_mem _ _ _ hm)
    simp only at he
    dsimp only
    rw [if_neg (by rw [he]; exact fun hx => hne hx.symm)]
    exact hdisk

theorem setAll_allHash {T : Type} (ver p c : String) (ds : List T) :
    cacheAllHash (ds.foldl (fun st d => cacheSet st 0 p c d) (emptyCache T ver))
      (hash_content c) := by
  suffices hgen : ∀ st : CacheState T, cacheAllHash st (hash_content c) →
      cacheAllHash (ds.foldl (fun st d => cacheSet st 0 p c d) st)
        (hash_content c) by
    refine hgen _ ?_
    constructor <;> intro e he <;> cases he
  induction ds with
  | nil => exact fun st h => h
  | cons d rest ih =>
    intro st hst
    exact ih _ (cacheSet_allHash st 0 p c d hst)

/-! ## ReDoS detector lemmas -/

/-- Soundness of the anchored matcher: a successful detection decomposes
the input as optional caret, a parenthesized word character with inner
plus, the outer plus, optional dollar; the output is the input without
the outer plus. -/
theorem detectCore_decomp (l : List Char) (out : List Char)
    (h : detectCore l = some out) :
    ∃ pre c suf, isWordChar c = true ∧ (pre = [] ∨ pre = ['^']) ∧
      (suf = [] ∨ suf = ['$']) ∧
      l = pre ++ '(' :: c :: '+' :: ')' :: '+' :: suf ∧
      out = pre ++ '(' :: c :: '+' :: ')' :: suf := by
  unfold detectCore at h
  split at h
  · rename_i c rest
    split at h
    · rename_i hw
      split at h
      · cases h
        exact ⟨['^'], c, [], hw, Or.inr rfl, Or.inl rfl, rfl, rfl⟩
      · cases h
        exact ⟨['^'], c, ['$'], hw, Or.inr rfl, Or.inr rfl, rfl, rfl⟩
      · cases h
    · cases h
  · rename_i c rest
    split at h
    · rename_i hw
      split at h
      · cases h
        exact ⟨[], c, [], hw, Or.inl rfl, Or.inl rfl, rfl, rfl⟩
      · cases h
        exact ⟨[], c, ['$'], hw, Or.inl rfl, Or.inr rfl, rfl, rfl⟩
      · cases h
    · cases h
  · cases h

/-! ## Claim theorems -/

/-- C10: for every input pattern, the ReDoS check's output satisfies:
safe is false if and only if a rewrite suggestion is present;
equivalently, safe is true exactly when the nested-quantifier detector
(matching only the exact anchored shape: optional caret, one
parenthesized word character with an inner plus, an outer plus, optional
dollar) finds no match; and in the unsafe case the rewrite is the same
pattern with the outer plus removed. -/
theorem C10_redos_check (p : String) :
    ((check_redos p).safe = false ↔ ((check_redos p).rewrite).isSome = true) ∧
    ((check_redos p).safe = true ↔ detect_simple_nested_quantifier p = none) ∧
    (∀ r, (check_redos p).rewrite = some r →
      ∃ pre c suf, isWordChar c = true ∧ (pre = [] ∨ pre = ['^']) ∧
        (suf = [] ∨ suf = ['$']) ∧
        p.data = pre ++ '(' :: c :: '+' :: ')' :: '+' :: suf ∧
        r.data = pre ++ '(' :: c :: '+' :: ')' :: suf) := by
  refine ⟨?_, ?_, ?_⟩
  · simp only [check_redos, is_likely_safe]
    cases detect_simple_nested_quantifier p <;> simp
  · simp only [check_redos, is_likely_safe]
    cases detect_simple_nested_quantifier p <;> simp
  · intro r h
    have h2 : (detectCore p.data).map String.mk = some r := h
    rw [Option.map_eq_some'] at h2
    obtain ⟨out, hout, hr⟩ := h2
    obtain ⟨pre, c, suf, hw, hp, hs, hl, ho⟩ := detectCore_decomp p.data out hout
    exact ⟨pre, c, suf, hw, hp, hs, hl, by rw [← hr, ho]⟩

/-- C10 witness: the canonical catastrophic pattern is flagged unsafe
and rewritten with the outer plus removed. -/
theorem C10_witness :
    (check_redos "^(a+)+$").rewrite = some "^(a+)$" ∧
    (∃ pre c suf, isWordChar c = true ∧ (pre = [] ∨ pre = ['^']) ∧
      (suf = [] ∨ suf = ['$']) ∧
      ("^(a+)+$").data = pre ++ '(' :: c :: '+' :: ')' :: '+' :: suf ∧
      ("^(a+)$").data = pre ++ '(' :: c :: '+' :: ')' :: suf) :=
  ⟨by decide, (C10_redos_check "^(a+)+$").2.2 "^(a+)$" (by decide)⟩

/-- C8: for every input on which parsing fails (the upstream parser, an
external collaborator, reports failure as the absence of a tree),
extract_all returns exactly the triple of three empty sequences; the
embedded function is total, so no error reaches the caller. -/
theorem C8_parse_failure_empty_triple (parsed : Option ModuleAst)
    (h : parsed = none) :
    extract_all parsed = (([] : List ComponentMeta),
      ([] : List ImportMeta), ([] : List ExportInfo)) := by
  subst h
  rfl

/-- C8 witness: the failed-parse input evaluates to the empty triple. -/
theorem C8_witness :
    (none : Option ModuleAst) = none ∧
    extract_all (none : Option ModuleAst) = (([] : List ComponentMeta),
      ([] : List ImportMeta), ([] : List ExportInfo)) :=
  ⟨rfl, C8_parse_failure_empty_triple none rfl⟩

/-- C5: for every file path, content string and datum, set followed
immediately by get with the same path and content returns some data —
from any starting cache state and for any capture timestamp. -/
theorem C5_set_then_get (T : Type) (st : CacheState T) (now : Nat)
    (p c : String) (d : T) :
    (cacheGet (cacheSet st now p c d) p c).1 = some d := by
  simp [cacheGet, cacheSet, mapLookup_insert_self]

/-! ## C6: the fingerprint is 64 bits wide, so distinct contents can
share a fingerprint (pigeonhole); get misses exactly on fingerprint
mismatch. -/

theorem sipFinal_lt (s : SipState) (tail : List Nat) (len : Nat) :
    sipFinal s tail len < u64Mod :=
  Nat.mod_lt _ (by decide)

theorem sipLoop_lt (s : SipState) (len : Nat) (msg : List Nat) :
    sipLoop s len msg < u64Mod := by
  induction s, len, msg using sipLoop.induct with
  | case1 s len b0 b1 b2 b3 b4 b5 b6 b7 rest ih =>
    rw [sipLoop]
    exact ih
  | case2 s len tail hne =>
    rw [sipLoop.eq_def]
    split
    · rename_i b0 b1 b2 b3 b4 b5 b6 b7 rest
      exact absurd rfl (hne b0 b1 b2 b3 b4 b5 b6 b7 rest)
    · exact sipFinal_lt _ _ _

theorem hash_content_lt (c : String) : hash_content c < u64Mod :=
  sipLoop_lt _ _ _

/-- Two distinct strings with the same content fingerprint exist:
infinitely many strings map into 2^64 fingerprints. -/
theorem hash_content_collision :
    ∃ c cNew : String, cNew ≠ c ∧ hash_content cNew = hash_content c := by
  obtain ⟨x, y, hxy, hf⟩ :=
    Finite.exists_ne_map_eq_of_infinite
      (fun s : String => (⟨hash_content s, hash_content_lt s⟩ : Fin u64Mod))
  refine ⟨x, y, fun h => hxy h.symm, ?_⟩
  simpa [Fin.mk.injEq] using hf.symm

/-- C6 counterexample: the claim fails in principle — there are a path,
two distinct contents and a datum such that after a set with the first
content, get with the second (never stored) content still returns a
result, because the two contents share their 64-bit fingerprint. -/
theorem C6_counterexample :
    ∃ (c cNew : String) (d : Nat), cNew ≠ c ∧
      (cacheGet (cacheSet (emptyCache Nat "0.6.0") 0 "a.tsx" c d)
        "a.tsx" cNew).1 ≠ none := by
  obtain ⟨c, cNew, hne, hh⟩ := hash_content_collision
  refine ⟨c, cNew, 0, hne, ?_⟩
  simp [cacheGet, cacheSet, mapLookup_insert_self, hh]

/-- C6 (amended): if every set ever performed for a path used content c,
then a get for that path with any content whose fingerprint differs from
c's returns no result; distinct contents are rejected exactly when their
fingerprints differ. -/
theorem C6_mismatched_fingerprint_misses (T : Type) (ver p c cNew : String)
    (ds : List T) (hne : hash_content cNew ≠ hash_content c) :
    (cacheGet (ds.foldl (fun st d => cacheSet st 0 p c d) (emptyCache T ver))
      p cNew).1 = none :=
  cacheGet_none_of_allHash _ p cNew (hash_content c) (setAll_allHash ver p c ds) hne

/-- C6 witness: a concrete run — one stored content, a lookup with a
different content whose fingerprint differs, and the get misses. -/
theorem C6_witness :
    hash_content "const y = 2;" ≠ hash_content "const y = 1;" ∧
    (cacheGet
      (([5] : List Nat).foldl
        (fun st d => cacheSet st 0 "p.ts" "const y = 1;" d)
        (emptyCache Nat "1.0"))
      "p.ts" "const y = 2;").1 = none :=
  ⟨by decide,
    C6_mismatched_fingerprint_misses Nat "1.0" "p.ts" "const y = 1;"
      "const y = 2;" [5] (by decide)⟩

/-- C9: in every graph built by the indexer (with or without the cache),
the imports map and the exports map never hold an empty sequence: a
looked-up value is always non-empty, because the merge step only inserts
non-empty lists. -/
theorem C9_no_empty_map_values (files : List FileInput) (uc : Bool)
    (p : String) :
    (∀ v, mapLookup (index_project_with_cache files uc).imports p = some v →
      v ≠ []) ∧
    (∀ v, mapLookup (index_project_with_cache files uc).exports p = some v →
      v ≠ []) := by
  have h := index_project_with_cache_noEmptyVals files uc
  constructor
  · intro v hv
    exact h.1 _ (mapLookup_mem _ _ _ hv)
  · intro v hv
    exact h.2 _ (mapLookup_mem _ _ _ hv)

/-- C9 witness: a file with one import and one export yields singleton
(hence non-empty) map entries. -/
theorem C9_witness :
    mapLookup (index_project_with_cache [impExpFile] false).imports "b.ts" =
      some [⟨"y", [⟨"x", some "default"⟩], 1⟩] ∧
    ([⟨"y", [⟨"x", some "default"⟩], 1⟩] : List ImportMeta) ≠ [] :=
  ⟨by decide,
    (C9_no_empty_map_values [impExpFile] false "b.ts").1
      [⟨"y", [⟨"x", some "default"⟩], 1⟩] (by decide)⟩

/-- C3 counterexample: for `const Button = () => \x7b\x7d; export
default Button;` the exports list holds exactly one record — name
"default", kind Default — and no record named "Button": in swc,
`export default <identifier>` is an ExportDefaultExpr handled by the
default-expression path, not an export declaration. -/
theorem C3_counterexample :
    (extract_all (some defaultIdentModule)).2.2 =
      [⟨"default", ExportKind.Default, 26⟩] ∧
    (∀ e ∈ (extract_all (some defaultIdentModule)).2.2, e.name ≠ "Button") := by
  decide

/-- C3 (amended): for the input `const Button = () => \x7b\x7d; export
default Button;` the exports list contains exactly one record, named
"default" of kind Default, produced by the default-expression path; and
for `export default () => \x7b\x7d` it likewise contains a record named
"default" of kind Default. -/
theorem C3_default_expression_exports :
    (extract_all (some defaultIdentModule)).2.2 =
      [⟨"default", ExportKind.Default, 26⟩] ∧
    (extract_all (some defaultArrowModule)).2.2 =
      [⟨"default", ExportKind.Default, 1⟩] := by
  decide

/-- C2: the line field is NOT the 1-based source line.  For the one-line
file `function Button(props) \x7b\x7d`, span_line stores the raw global
byte position of the identifier (10 for Button, 17 for props), while the
1-based source line of both positions is 1.  This evaluates the code at
the failing input of the code_bug verdict. -/
theorem C2_line_field_is_byte_position :
    (extract_all (some buttonModule)).1 =
      [⟨"Button", "", false, [⟨"props", PropKind.Primitive, true, 17⟩], [], 10⟩] ∧
    lineOfBytePos buttonSrc 10 = 1 ∧ lineOfBytePos buttonSrc 17 = 1 ∧
    (10 : Nat) ≠ 1 ∧ (17 : Nat) ≠ 1 := by
  decide

/-- C1: (no loss) processing any run of module items only ever appends
to the component name list — a component once emitted is never removed
or renamed by the rest of the traversal; (last wins) whenever a file's
extraction yields components, the indexer's merge step stores under that
file's path exactly one ComponentMeta: the last component in emission
order, with file_path set to the file and exports overwritten by the
file's export list, earlier components being silently overwritten. -/
theorem C1_all_components_emitted_last_wins :
    (∀ (st : ExtractState) (items : List ModuleItemAst),
      ∃ t, (items.foldl visitModuleItem st).components.map (fun c => c.name) =
        st.components.map (fun c => c.name) ++ t) ∧
    (∀ (g : MetadataGraph) (p : String) (parsed : Option ModuleAst)
        (c0 : ComponentMeta),
      (extract_all parsed).1.getLast? = some c0 →
      mapLookup (processFileCore g p (extract_all parsed)).components p =
        some {c0 with file_path := p, exports := (extract_all parsed).2.2}) := by
  constructor
  · intro st items
    exact compExtends_names (foldl_visitModuleItem_extends st items)
  · intro g p parsed c0 h
    simp only [processFileCore]
    exact foldl_insertComponent_lookup_last _ _ p _ c0 h

/-- C1 witness: a file declaring two components Foo and Bar — both are
in the extractor's list (Bar is its last element) and the graph slot for
the file holds Bar. -/
theorem C1_witness :
    (extract_all (some twoCompModule)).1.getLast? =
      some ⟨"Bar", "", false, [], [], 28⟩ ∧
    mapLookup (processFileCore emptyGraph "a.tsx"
        (extract_all (some twoCompModule))).components "a.tsx" =
      some ⟨"Bar", "a.tsx", false, [], [], 28⟩ :=
  ⟨by decide,
    C1_all_components_emitted_last_wins.2 emptyGraph "a.tsx"
      (some twoCompModule) ⟨"Bar", "", false, [], [], 28⟩ (by decide)⟩

/-- C4 counterexample: an exported top-level function declaration with
an uppercase identifier produces NO component record, because
visit_export_decl does not visit its children; only the Named export
record is emitted. -/
theorem C4_counterexample :
    (extract_all (some exportButtonModule)).1 = [] ∧
    (extract_all (some exportButtonModule)).2.2 =
      [⟨"Button", ExportKind.Named, 1⟩] := by
  decide

/-- C4 (amended): a PLAIN (non-exported) top-level function declaration
emits a component record exactly when its identifier starts uppercase:
the visit of such a declaration is, as an exact equality, the body walk
from the state with the record (is_memoized false, props from the
parameter conversion) appended when the identifier starts uppercase, and
from the unchanged state otherwise — so a lowercase declaration itself
emits nothing (evaluated concretely on `function helper(props)`: no
component at all); the parameter conversion agrees
parameter-by-parameter with the spec's wording; and a function
declaration inside an export declaration contributes only a Named export
record and no component record. -/
theorem C4_fn_decl_component_rule :
    (∀ (st : ExtractState) (id : SIdent) (params : List Param)
        (body : StmtList),
      visitStmt st (.fnDecl id params body) =
        visitStmtList
          (if firstCharUpper id.sym then
            {st with components := st.components ++ [mkFnDeclComponent id params]}
          else st) body) ∧
    (extract_all (some lowerFnModule)).1 = [] ∧
    (∀ params : List Param,
      params_to_props params = params.map specParamPropInfo) ∧
    (∀ (st : ExtractState) (id : SIdent) (params : List Param)
        (body : StmtList) (sp : Span),
      visitModuleItem st (.exportDecl (.fn id params body) sp) =
        {st with exports :=
          st.exports ++ [⟨id.sym, ExportKind.Named, span_line sp⟩]}) := by
  refine ⟨?_, ?_, ?_, ?_⟩
  · intro st id params body
    simp only [visitStmt]
  · decide
  · intro params
    have hgen : ∀ (ps : List Param) (acc : List PropInfo),
        ps.foldl
          (fun props p =>
            props ++ [match p.pat with
                      | .ident bi =>
                        ⟨bi.sym, PropKind.Primitive, true, span_line bi.span⟩
                      | .object _ =>
                        ⟨"props", PropKind.Object, false, span_line p.span⟩
                      | .array _ =>
                        ⟨"props", PropKind.Array, false, span_line p.span⟩
                      | .otherPat _ =>
                        ⟨"arg", PropKind.Primitive, true, span_line p.span⟩])
          acc = acc ++ ps.map specParamPropInfo := by
      intro ps
      induction ps with
      | nil => intro acc; simp
      | cons p rest ih =>
        intro acc
        rcases p with ⟨psp, ppat⟩
        cases ppat <;> simp [ih, specParamPropInfo]
    simpa using hgen params []
  · intro st id params body sp
    rfl

/-- C7 counterexample: a variable declaration whose initializer is the
memo call React.memo(Foo) with Foo already recorded as a component, but
whose binding is an array destructuring pattern: the linking rule never
fires (the code first requires d.name.as_ident() to succeed), so Foo
keeps is_memoized = false and no record is appended — at the module
level and at the single-declarator step. -/
theorem C7_counterexample :
    (extract_all (some arrayMemoBindModule)).1 =
      [⟨"Foo", "", false, [], [], 10⟩] ∧
    (visitVarDeclarator ⟨[⟨"Foo", "", false, [], [], 10⟩], [], []⟩
        arrayMemoDecl).components =
      [⟨"Foo", "", false, [], [], 10⟩] := by
  decide

theorem setMemoizedFirst_mem (xs : List ComponentMeta) (n : String)
    (h : xs.any (fun c => c.name == n) = true) :
    ∃ c ∈ setMemoizedFirst xs n, c.name = n ∧ c.is_memoized = true := by
  induction xs with
  | nil => cases h
  | cons c rest ih =>
    by_cases hc : c.name == n
    · simp only [setMemoizedFirst, hc, if_true]
      exact ⟨_, List.mem_cons_self _ _, by simpa using hc, rfl⟩
    · simp only [List.any_cons, hc, Bool.false_or] at h
      simp only [setMemoizedFirst, hc, if_false]
      obtain ⟨c2, hm, h2⟩ := ih h
      exact ⟨c2, List.mem_cons_of_mem _ hm, h2⟩

/-- C7 (amended): during extraction, for every variable declaration
whose binding is a plain identifier and whose initializer is a call to a
recognized memoization wrapper with a bare identifier N as first
argument: if a component named N is already recorded, the first such
record's is_memoized flag is set to true, otherwise a new record named N
with is_memoized = true and empty props is appended; in either case the
visited state contains a memoized component named N.  Consequently,
indexing a file declaring Foo followed by
`const Memoized = React.memo(Foo)` makes is_component_memoized true for
that file. -/
theorem C7_memo_linking :
    (∀ (st : ExtractState) (nid : SIdent) (ce : Expr) (argId : SIdent)
        (args : ExprList) (csp : Span),
      is_identifier_react_memo ce = true →
      (applyVarDeclRule st
          (.mk (.ident nid)
            (.init (.call (.expr ce)
              (.cons (.ident argId) args) csp)))).components =
        (if st.components.any (fun c => c.name == argId.sym)
         then setMemoizedFirst st.components argId.sym
         else st.components ++
           [⟨argId.sym, "", true, [], [], span_line nid.span⟩]) ∧
      (∃ c ∈ (visitVarDeclarator st
          (.mk (.ident nid)
            (.init (.call (.expr ce)
              (.cons (.ident argId) args) csp)))).components,
        c.name = argId.sym ∧ c.is_memoized = true)) ∧
    is_component_memoized (index_project [fooMemoFile]) "src/Foo.tsx" = true := by
  constructor
  · intro st nid ce argId args csp hmemo
    have hrule :
        (applyVarDeclRule st
            (.mk (.ident nid)
              (.init (.call (.expr ce)
                (.cons (.ident argId) args) csp)))).components =
          (if st.components.any (fun c => c.name == argId.sym)
           then setMemoizedFirst st.components argId.sym
           else st.components ++
             [⟨argId.sym, "", true, [], [], span_line nid.span⟩]) := by
      simp only [applyVarDeclRule, hmemo, if_true, firstArg, expr_ident_name]
      by_cases hany : st.components.any (fun c => c.name == argId.sym) <;>
        simp [hany]
    refine ⟨hrule, ?_⟩
    have hbase :
        ∃ c ∈ (applyVarDeclRule st
            (.mk (.ident nid)
              (.init (.call (.expr ce)
                (.cons (.ident argId) args) csp)))).components,
          c.name = argId.sym ∧ c.is_memoized = true := by
      rw [hrule]
      by_cases hany : st.components.any (fun c => c.name == argId.sym)
      · rw [if_pos hany]
        exact setMemoizedFirst_mem st.components argId.sym hany
      · rw [if_neg hany]
        exact ⟨_, List.mem_append_right _ (List.mem_singleton_self _), rfl, rfl⟩
    exact compExtends_preserves_memoized
      (visitInit_extends _ _) hbase
  · decide

/-- C7 witness: instantiating the linking rule on the parsed declarator
`const Memoized = React.memo(Foo)` from an empty extractor state: the
callee is recognized and the resulting state holds a memoized component
named Foo. -/
theorem C7_witness :
    is_identifier_react_memo
      (Expr.member (.ident ⟨"React", ⟨41⟩⟩) (.ident "memo") ⟨41⟩) = true ∧
    (∃ c ∈ (visitVarDeclarator emptyExtract
        (.mk (.ident ⟨"Memoized", ⟨30⟩⟩)
          (.init (.call
            (.expr (Expr.member (.ident ⟨"React", ⟨41⟩⟩) (.ident "memo") ⟨41⟩))
            (.cons (.ident ⟨"Foo", ⟨52⟩⟩) .nil) ⟨41⟩)))).components,
      c.name = "Foo" ∧ c.is_memoized = true) :=
  ⟨by decide,
    (C7_memo_linking.1 emptyExtract ⟨"Memoized", ⟨30⟩⟩
      (Expr.member (.ident ⟨"React", ⟨41⟩⟩) (.ident "memo") ⟨41⟩)
      ⟨"Foo", ⟨52⟩⟩ .nil ⟨41⟩ (by decide)).2⟩

end PerfLinter

